import Mathlib

/-!
Verification of the NumPy Analyzer repository (src/main.py): a shallow
embedding of its array model and of the operations of the `DataAnalytics`
and `NumPyAnalyzer` classes, with theorems settling the specification's
claims. Python floats are modelled as rationals, Python strings as lists
of characters, and each `raise` site as an `Err` constructor.
-/

namespace Analyzer

/-- Error kinds raised by the program. The source raises `ValueError` with a
distinct message per site (or lets the numeric library raise); each site maps
to one constructor: `noArray` = "No array created yet!", `shapeMismatch` = the
element-count check of the creation classmethods and the shape check of
`elementwise_operation`, `unknownOperation` = "Unknown operation",
`invalidConditionFormat` = "Invalid condition format", `floatConversion` =
the error Python's float() raises on a bad literal, `notNdarray` = "Input must
be a NumPy array", `dimensionMismatch` = the library error for misaligned
dot operands, `unsupportedDot` = dot-product rank combinations outside the
modelled fragment, `indexOutOfRange` = library index errors,
`percentileOutOfRange` and `emptyArray` = library errors raised by
percentile/min/max on bad percentages or empty data, `axisOutOfBounds` =
sorting a rank-0 array along axis -1. -/
inductive Err
  | noArray
  | shapeMismatch
  | unknownOperation
  | invalidConditionFormat
  | floatConversion
  | notNdarray
  | dimensionMismatch
  | unsupportedDot
  | indexOutOfRange
  | percentileOutOfRange
  | emptyArray
  | axisOutOfBounds
  deriving DecidableEq

/-- Model of a NumPy ndarray: its shape and its flat row-major element data,
with elements modelled as rationals. -/
structure NumericArray where
  shape : List ℕ
  data : List ℚ
  deriving DecidableEq

/-- A well-formed ndarray holds as many elements as the product of its shape. -/
def NumericArray.wf (a : NumericArray) : Prop :=
  a.data.length = a.shape.prod

/-- Whitespace characters stripped by Python before parsing a float and used
by str.split() as separators. -/
def isPySpace (c : Char) : Bool :=
  c == ' ' || c == '\t' || c == '\n' || c == '\r' || c == '\x0b' || c == '\x0c'

/-- Strip leading and trailing whitespace, as Python's float() does. -/
def trimWS (s : List Char) : List Char :=
  ((s.dropWhile isPySpace).reverse.dropWhile isPySpace).reverse

/-- Split an optional leading sign off a numeric literal. -/
def splitSign (s : List Char) : ℚ × List Char :=
  match s with
  | '+' :: t => (1, t)
  | '-' :: t => (-1, t)
  | t => (1, t)

/-- Numeric value of a digit run. -/
def natOfDigits (ds : List Char) : ℕ :=
  ds.foldl (fun a c => 10 * a + (c.toNat - '0'.toNat)) 0

/-- Exponent part of a float literal, the 'e'/'E' marker already consumed. -/
def parseExp (mant : ℚ) (t : List Char) : Option ℚ :=
  let se : ℤ × List Char :=
    match t with
    | '+' :: u => (1, u)
    | '-' :: u => (-1, u)
    | u => (1, u)
  let ds := se.2.takeWhile Char.isDigit
  let rest := se.2.dropWhile Char.isDigit
  if ds.isEmpty then none
  else if rest.isEmpty then some (mant * (10 : ℚ) ^ (se.1 * (natOfDigits ds : ℤ)))
  else none

/-- Model of Python's float() on an already-trimmed string, for finite decimal
literals: optional sign, digits with an optional fractional part (at least one
digit overall), and an optional exponent. The inf/nan spellings and the digit
group underscores Python also accepts are outside the modelled fragment.
Returns none where float() raises ValueError. -/
def parseFloatCore (s : List Char) : Option ℚ :=
  let sg := splitSign s
  let intDs := sg.2.takeWhile Char.isDigit
  let s2 := sg.2.dropWhile Char.isDigit
  let fr : List Char × List Char :=
    match s2 with
    | '.' :: t => (t.takeWhile Char.isDigit, t.dropWhile Char.isDigit)
    | t => ([], t)
  if intDs.isEmpty && fr.1.isEmpty then none
  else
    let mant : ℚ :=
      sg.1 * ((natOfDigits intDs : ℚ) + (natOfDigits fr.1 : ℚ) / (10 : ℚ) ^ fr.1.length)
    match fr.2 with
    | [] => some mant
    | 'e' :: t => parseExp mant t
    | 'E' :: t => parseExp mant t
    | _ => none

/-- Model of Python's float() on a string: trim whitespace, then parse. -/
def pyFloat (s : List Char) : Option ℚ :=
  parseFloatCore (trimWS s)

/-- Model of Python's str.split() with no separator: split on whitespace runs,
dropping empty tokens. The accumulator holds the current token reversed. -/
def splitWSAux : List Char → List Char → List (List Char)
  | [], acc => if acc.isEmpty then [] else [acc.reverse]
  | c :: t, acc =>
    if isPySpace c then
      if acc.isEmpty then splitWSAux t [] else acc.reverse :: splitWSAux t []
    else splitWSAux t (c :: acc)

/-- Model of Python's str.split() with no separator. -/
def splitWS (s : List Char) : List (List Char) :=
  splitWSAux s []

/-- Model of list(map(float, tokens)): parse every token left to right,
failing at the first bad one. -/
def parseAll : List (List Char) → Option (List ℚ)
  | [] => some []
  | t :: ts =>
    match pyFloat t with
    | none => none
    | some v =>
      match parseAll ts with
      | none => none
      | some vs => some (v :: vs)

/-- The elements argument of the creation classmethods: either a Python string
of whitespace-separated numbers or an already-built list of numbers. -/
inductive ElementsInput
  | str (s : List Char)
  | list (l : List ℚ)

/-- The `isinstance(elements, str)` branch at the top of each creation
classmethod: a string is split and converted with float, a list is kept. -/
def toElements : ElementsInput → Except Err (List ℚ)
  | .list l => .ok l
  | .str s =>
    match parseAll (splitWS s) with
    | none => .error .floatConversion
    | some l => .ok l

/-- DataAnalytics.create_1d_array: np.array(elements) has shape (len,). The
classmethod returns cls(array); the constructed ndarray is modelled here and
the wrapping into a holder at the call site (see NumPyAnalyzer below). -/
def DataAnalytics.create_1d_array (elements : ElementsInput) :
    Except Err NumericArray :=
  match toElements elements with
  | .error e => .error e
  | .ok els => .ok ⟨[els.length], els⟩

/-- DataAnalytics.create_2d_array: raises unless `rows * cols` equals the
element count, then reshapes; reshape keeps the flat row-major data. -/
def DataAnalytics.create_2d_array (rows cols : ℕ) (elements : ElementsInput) :
    Except Err NumericArray :=
  match toElements elements with
  | .error e => .error e
  | .ok els =>
    if els.length ≠ rows * cols then .error .shapeMismatch
    else .ok ⟨[rows, cols], els⟩

/-- DataAnalytics.create_3d_array: raises unless `depth * rows * cols` equals
the element count, then reshapes. -/
def DataAnalytics.create_3d_array (depth rows cols : ℕ) (elements : ElementsInput) :
    Except Err NumericArray :=
  match toElements elements with
  | .error e => .error e
  | .ok els =>
    if els.length ≠ depth * rows * cols then .error .shapeMismatch
    else .ok ⟨[depth, rows, cols], els⟩

/-- C1: for every rank, constructing from an element list whose length equals
the product of the requested dimensions succeeds and the resulting shape is
exactly the requested dimensions; for rank 2 and 3 any other element count
fails with the ShapeMismatch error. -/
theorem C1_creation_shape :
    (∀ els : List ℚ,
      DataAnalytics.create_1d_array (.list els) = .ok ⟨[els.length], els⟩) ∧
    (∀ rows cols (els : List ℚ),
      (els.length = rows * cols →
        DataAnalytics.create_2d_array rows cols (.list els) =
          .ok ⟨[rows, cols], els⟩) ∧
      (els.length ≠ rows * cols →
        DataAnalytics.create_2d_array rows cols (.list els) =
          .error .shapeMismatch)) ∧
    (∀ depth rows cols (els : List ℚ),
      (els.length = depth * rows * cols →
        DataAnalytics.create_3d_array depth rows cols (.list els) =
          .ok ⟨[depth, rows, cols], els⟩) ∧
      (els.length ≠ depth * rows * cols →
        DataAnalytics.create_3d_array depth rows cols (.list els) =
          .error .shapeMismatch)) := by
  refine ⟨fun els => rfl,
    fun rows cols els => ⟨fun h => ?_, fun h => ?_⟩,
    fun depth rows cols els => ⟨fun h => ?_, fun h => ?_⟩⟩ <;>
    simp [DataAnalytics.create_2d_array, DataAnalytics.create_3d_array,
      toElements, h]

/-- Witness for C1 at the spec's example: a 2×3 request with six elements
succeeds with shape [2, 3], and with five elements fails with ShapeMismatch. -/
theorem C1_creation_shape_witness :
    DataAnalytics.create_2d_array 2 3 (.list [10, 20, 30, 40, 50, 60]) =
      .ok ⟨[2, 3], [10, 20, 30, 40, 50, 60]⟩ ∧
    DataAnalytics.create_2d_array 2 3 (.list [1, 2, 3, 4, 5]) =
      .error .shapeMismatch := by
  exact ⟨(C1_creation_shape.2.1 2 3 _).1 (by decide),
    (C1_creation_shape.2.1 2 3 _).2 (by decide)⟩

/-- Model of Python str.startswith. -/
def startsWith (s p : List Char) : Bool :=
  p.isPrefixOf s

/-- DataAnalytics.filter_array: dispatch on the condition's operator head,
convert the remainder with float(), and keep the elements satisfying the
comparison. Boolean-mask indexing on an ndarray returns the kept elements
flattened in row-major order, i.e. in flat data order. The dispatch order of
the source (>=, <=, >, <, ==, !=) is kept. -/
def DataAnalytics.filter_array (arr : Option NumericArray) (condition : List Char) :
    Except Err (List ℚ) :=
  match arr with
  | none => .error .noArray
  | some a =>
    if startsWith condition ['>', '='] then
      match pyFloat (condition.drop 2) with
      | none => .error .floatConversion
      | some v => .ok (a.data.filter (fun x => decide (v ≤ x)))
    else if startsWith condition ['<', '='] then
      match pyFloat (condition.drop 2) with
      | none => .error .floatConversion
      | some v => .ok (a.data.filter (fun x => decide (x ≤ v)))
    else if startsWith condition ['>'] then
      match pyFloat (condition.drop 1) with
      | none => .error .floatConversion
      | some v => .ok (a.data.filter (fun x => decide (v < x)))
    else if startsWith condition ['<'] then
      match pyFloat (condition.drop 1) with
      | none => .error .floatConversion
      | some v => .ok (a.data.filter (fun x => decide (x < v)))
    else if startsWith condition ['=', '='] then
      match pyFloat (condition.drop 2) with
      | none => .error .floatConversion
      | some v => .ok (a.data.filter (fun x => decide (x = v)))
    else if startsWith condition ['!', '='] then
      match pyFloat (condition.drop 2) with
      | none => .error .floatConversion
      | some v => .ok (a.data.filter (fun x => decide (x ≠ v)))
    else .error .invalidConditionFormat

/-- The six comparison operators recognized by filter_array. -/
inductive FilterOp
  | ge
  | le
  | gt
  | lt
  | eq
  | ne

/-- The operator's spelling at the head of a condition string. -/
def FilterOp.chars : FilterOp → List Char
  | .ge => ['>', '=']
  | .le => ['<', '=']
  | .gt => ['>']
  | .lt => ['<']
  | .eq => ['=', '=']
  | .ne => ['!', '=']

/-- Whether an element x passes the comparison against the threshold v. -/
def FilterOp.sat : FilterOp → ℚ → ℚ → Bool
  | .ge, v => fun x => decide (v ≤ x)
  | .le, v => fun x => decide (x ≤ v)
  | .gt, v => fun x => decide (v < x)
  | .lt, v => fun x => decide (x < v)
  | .eq, v => fun x => decide (x = v)
  | .ne, v => fun x => decide (x ≠ v)

/-- Whether the condition string starts with one of the six recognized
operator spellings. -/
def recognizedOp (c : List Char) : Bool :=
  startsWith c ['>', '='] || startsWith c ['<', '='] || startsWith c ['>'] ||
    startsWith c ['<'] || startsWith c ['=', '='] || startsWith c ['!', '=']

/-- The part of the condition string passed to float(), following the source's
dispatch order. -/
def condRemainder (c : List Char) : List Char :=
  if startsWith c ['>', '='] then c.drop 2
  else if startsWith c ['<', '='] then c.drop 2
  else if startsWith c ['>'] then c.drop 1
  else if startsWith c ['<'] then c.drop 1
  else if startsWith c ['=', '='] then c.drop 2
  else if startsWith c ['!', '='] then c.drop 2
  else c

lemma dropWhile_append_single (p : Char → Bool) (c : Char) (hc : p c = false)
    (xs : List Char) : (xs ++ [c]).dropWhile p = xs.dropWhile p ++ [c] := by
  cases h : xs.dropWhile p with
  | nil => simp [List.dropWhile_append, h, List.dropWhile, hc]
  | cons b bs => simp [List.dropWhile_append, h]

lemma trimWS_cons_of_not_space (c : Char) (hc : isPySpace c = false) (t : List Char) :
    trimWS (c :: t) = c :: (t.reverse.dropWhile isPySpace).reverse := by
  unfold trimWS
  rw [List.dropWhile_cons]
  simp only [hc, Bool.false_eq_true, if_false, List.reverse_cons,
    dropWhile_append_single isPySpace c hc, List.reverse_append]
  rfl

lemma parseFloatCore_eq_head (u : List Char) : parseFloatCore ('=' :: u) = none :=
  rfl

lemma pyFloat_eq_head (t : List Char) : pyFloat ('=' :: t) = none := by
  unfold pyFloat
  rw [trimWS_cons_of_not_space '=' (by decide) t]
  exact parseFloatCore_eq_head _

lemma pyFloat_nil : pyFloat [] = none :=
  rfl

lemma filter_array_format_error (a : NumericArray) (c : List Char)
    (h : recognizedOp c = false) :
    DataAnalytics.filter_array (some a) c = .error .invalidConditionFormat := by
  unfold recognizedOp at h
  simp only [Bool.or_eq_false_iff] at h
  obtain ⟨⟨⟨⟨⟨h1, h2⟩, h3⟩, h4⟩, h5⟩, h6⟩ := h
  simp [DataAnalytics.filter_array, h1, h2, h3, h4, h5, h6]

lemma filter_array_recognized (a : NumericArray) (c : List Char)
    (h : recognizedOp c = true) :
    (pyFloat (condRemainder c) = none →
      DataAnalytics.filter_array (some a) c = .error .floatConversion) ∧
    (pyFloat (condRemainder c) ≠ none →
      DataAnalytics.filter_array (some a) c ≠ .error .invalidConditionFormat) := by
  by_cases h1 : startsWith c ['>', '='] = true
  · constructor
    · intro hn
      simp only [condRemainder, h1, if_true] at hn
      simp [DataAnalytics.filter_array, h1, hn]
    · intro hs
      simp only [condRemainder, h1, if_true] at hs
      rcases hp : pyFloat (c.drop 2) with _ | v
      · exact absurd hp hs
      · simp [DataAnalytics.filter_array, h1, hp]
  · rw [Bool.not_eq_true] at h1
    by_cases h2 : startsWith c ['<', '='] = true
    · constructor
      · intro hn
        simp only [condRemainder, h1, h2, Bool.false_eq_true, if_false, if_true] at hn
        simp [DataAnalytics.filter_array, h1, h2, hn]
      · intro hs
        simp only [condRemainder, h1, h2, Bool.false_eq_true, if_false, if_true] at hs
        rcases hp : pyFloat (c.drop 2) with _ | v
        · exact absurd hp hs
        · simp [DataAnalytics.filter_array, h1, h2, hp]
    · rw [Bool.not_eq_true] at h2
      by_cases h3 : startsWith c ['>'] = true
      · constructor
        · intro hn
          simp only [condRemainder, h1, h2, h3, Bool.false_eq_true, if_false,
            if_true, List.drop_one] at hn
          simp [DataAnalytics.filter_array, h1, h2, h3, hn]
        · intro hs
          simp only [condRemainder, h1, h2, h3, Bool.false_eq_true, if_false,
            if_true, List.drop_one] at hs
          rcases hp : pyFloat c.tail with _ | v
          · exact absurd hp hs
          · simp [DataAnalytics.filter_array, h1, h2, h3, hp]
      · rw [Bool.not_eq_true] at h3
        by_cases h4 : startsWith c ['<'] = true
        · constructor
          · intro hn
            simp only [condRemainder, h1, h2, h3, h4, Bool.false_eq_true, if_false,
              if_true, List.drop_one] at hn
            simp [DataAnalytics.filter_array, h1, h2, h3, h4, hn]
          · intro hs
            simp only [condRemainder, h1, h2, h3, h4, Bool.false_eq_true, if_false,
              if_true, List.drop_one] at hs
            rcases hp : pyFloat c.tail with _ | v
            · exact absurd hp hs
            · simp [DataAnalytics.filter_array, h1, h2, h3, h4, hp]
        · rw [Bool.not_eq_true] at h4
          by_cases h5 : startsWith c ['=', '='] = true
          · constructor
            · intro hn
              simp only [condRemainder, h1, h2, h3, h4, h5, Bool.false_eq_true,
                if_false, if_true] at hn
              simp [DataAnalytics.filter_array, h1, h2, h3, h4, h5, hn]
            · intro hs
              simp only [condRemainder, h1, h2, h3, h4, h5, Bool.false_eq_true,
                if_false, if_true] at hs
              rcases hp : pyFloat (c.drop 2) with _ | v
              · exact absurd hp hs
              · simp [DataAnalytics.filter_array, h1, h2, h3, h4, h5, hp]
          · rw [Bool.not_eq_true] at h5
            by_cases h6 : startsWith c ['!', '='] = true
            · constructor
              · intro hn
                simp only [condRemainder, h1, h2, h3, h4, h5, h6, Bool.false_eq_true,
                  if_false, if_true] at hn
                simp [DataAnalytics.filter_array, h1, h2, h3, h4, h5, h6, hn]
              · intro hs
                simp only [condRemainder, h1, h2, h3, h4, h5, h6, Bool.false_eq_true,
                  if_false, if_true] at hs
                rcases hp : pyFloat (c.drop 2) with _ | v
                · exact absurd hp hs
                · simp [DataAnalytics.filter_array, h1, h2, h3, h4, h5, h6, hp]
            · rw [Bool.not_eq_true] at h6
              exfalso
              simp only [recognizedOp, h1, h2, h3, h4, h5, h6] at h
              simp at h

/-- C2: for every condition string formed of a recognized operator followed by
a number string that float() accepts, filtering a held array returns exactly
the elements satisfying the comparison, in the original flat traversal order;
a condition starting with no recognized operator, such as "bad", fails with
the InvalidConditionFormat error. -/
theorem C2_filter_matches (a : NumericArray) (op : FilterOp) (s : List Char) (v : ℚ)
    (hv : pyFloat s = some v) :
    DataAnalytics.filter_array (some a) (op.chars ++ s) =
      .ok (a.data.filter (op.sat v)) ∧
    ((∀ c, recognizedOp c = false →
        DataAnalytics.filter_array (some a) c = .error .invalidConditionFormat) ∧
      DataAnalytics.filter_array (some a) ['b', 'a', 'd'] =
        .error .invalidConditionFormat) := by
  refine ⟨?_, fun c hc => filter_array_format_error a c hc,
    filter_array_format_error a ['b', 'a', 'd'] (by decide)⟩
  have hnil : s ≠ [] := by
    intro hs
    rw [hs, pyFloat_nil] at hv
    cases hv
  cases op
  case ge =>
    simp [DataAnalytics.filter_array, FilterOp.chars, FilterOp.sat, startsWith,
      List.isPrefixOf, hv]
  case le =>
    simp [DataAnalytics.filter_array, FilterOp.chars, FilterOp.sat, startsWith,
      List.isPrefixOf, hv]
  case gt =>
    rcases s with _ | ⟨c, t⟩
    · exact absurd rfl hnil
    · have hc : ('=' == c) = false := by
        rcases eq_or_ne c '=' with rfl | hne
        · rw [pyFloat_eq_head] at hv; cases hv
        · exact beq_eq_false_iff_ne.mpr (Ne.symm hne)
      simp [DataAnalytics.filter_array, FilterOp.chars, FilterOp.sat, startsWith,
        List.isPrefixOf, hc, hv]
  case lt =>
    rcases s with _ | ⟨c, t⟩
    · exact absurd rfl hnil
    · have hc : ('=' == c) = false := by
        rcases eq_or_ne c '=' with rfl | hne
        · rw [pyFloat_eq_head] at hv; cases hv
        · exact beq_eq_false_iff_ne.mpr (Ne.symm hne)
      simp [DataAnalytics.filter_array, FilterOp.chars, FilterOp.sat, startsWith,
        List.isPrefixOf, hc, hv]
  case eq =>
    simp [DataAnalytics.filter_array, FilterOp.chars, FilterOp.sat, startsWith,
      List.isPrefixOf, hv]
  case ne =>
    simp [DataAnalytics.filter_array, FilterOp.chars, FilterOp.sat, startsWith,
      List.isPrefixOf, hv]

lemma pyFloat_digit_five : pyFloat ['5'] = some 5 := by
  have h0 : trimWS ['5'] = ['5'] := rfl
  have h1 : splitSign ['5'] = (1, ['5']) := rfl
  have h2 : List.takeWhile Char.isDigit ['5'] = ['5'] := rfl
  have h3 : List.dropWhile Char.isDigit ['5'] = ([] : List Char) := rfl
  have h4 : natOfDigits ['5'] = 5 := rfl
  have h5 : natOfDigits [] = 0 := rfl
  rw [pyFloat, h0, parseFloatCore]
  simp only [h1, h2, h3, h4, h5]
  norm_num

/-- Witness for C2 at the spec's example: the condition ">5" on the held array
[1, 6, 3, 9, 2] returns exactly [6, 9] in the original order. -/
theorem C2_filter_matches_witness :
    DataAnalytics.filter_array (some ⟨[5], [1, 6, 3, 9, 2]⟩)
      (FilterOp.gt.chars ++ ['5']) = .ok [6, 9] := by
  have h := (C2_filter_matches ⟨[5], [1, 6, 3, 9, 2]⟩ .gt ['5'] 5 pyFloat_digit_five).1
  rw [h]
  norm_num [FilterOp.sat, List.filter]

/-- C10: when the condition starts with a recognized operator but the rest is
not a parsable float literal, the filter fails with the float-conversion
error, not the format error; the format error occurs exactly when no
recognized operator starts the string (given a held array). -/
theorem C10_filter_error_kinds (a : NumericArray) (c : List Char) :
    (recognizedOp c = true → pyFloat (condRemainder c) = none →
      DataAnalytics.filter_array (some a) c = .error .floatConversion) ∧
    (DataAnalytics.filter_array (some a) c = .error .invalidConditionFormat ↔
      recognizedOp c = false) := by
  refine ⟨fun h hn => (filter_array_recognized a c h).1 hn, ?_, ?_⟩
  · intro hf
    by_contra hr
    rw [Bool.not_eq_false] at hr
    rcases hp : pyFloat (condRemainder c) with _ | v
    · rw [(filter_array_recognized a c hr).1 hp] at hf
      simp at hf
    · exact (filter_array_recognized a c hr).2 (by simp [hp]) hf
  · exact fun hr => filter_array_format_error a c hr

/-- Witness for C10: the condition ">=" (an operator with nothing after it)
fails with the float-conversion error, and "bad" with the format error. -/
theorem C10_filter_error_kinds_witness :
    DataAnalytics.filter_array (some ⟨[1], [1]⟩) ['>', '='] =
      .error .floatConversion ∧
    DataAnalytics.filter_array (some ⟨[1], [1]⟩) ['b', 'a', 'd'] =
      .error .invalidConditionFormat := by
  exact ⟨(C10_filter_error_kinds ⟨[1], [1]⟩ ['>', '=']).1 (by decide) (by decide),
    (C10_filter_error_kinds ⟨[1], [1]⟩ ['b', 'a', 'd']).2.mpr (by decide)⟩

/-- The operation dictionary of elementwise_operation, mapping the four
operation names to the library's elementwise functions. np.divide by zero
yields inf/nan floats; over the rational model x / 0 is 0, division by zero
is outside the modelled fragment. -/
def opsTable : List (List Char × (ℚ → ℚ → ℚ)) :=
  [(['a', 'd', 'd'], fun x y => x + y),
   (['s', 'u', 'b', 't', 'r', 'a', 'c', 't'], fun x y => x - y),
   (['m', 'u', 'l', 't', 'i', 'p', 'l', 'y'], fun x y => x * y),
   (['d', 'i', 'v', 'i', 'd', 'e'], fun x y => x / y)]

/-- DataAnalytics.elementwise_operation: requires a held array, exactly equal
shapes, and a known operation name; applies the operation pairwise. The
second operand is modelled as an ndarray (the source coerces lists first). -/
def DataAnalytics.elementwise_operation (arr : Option NumericArray)
    (other : NumericArray) (operation : List Char) : Except Err NumericArray :=
  match arr with
  | none => .error .noArray
  | some a =>
    if a.shape ≠ other.shape then .error .shapeMismatch
    else
      match List.lookup operation opsTable with
      | none => .error .unknownOperation
      | some f => .ok ⟨a.shape, List.zipWith f a.data other.data⟩

/-- np.dot of two rank-1 operands: sum of pairwise products. -/
def dotData (x y : List ℚ) : ℚ :=
  (List.zipWith (fun p q => p * q) x y).sum

/-- np.dot of two rank-2 operands: standard matrix multiplication of an m×n
by an n×p matrix in flat row-major form. -/
def matMulData (m n p : ℕ) (A B : List ℚ) : List ℚ :=
  List.flatten ((List.range m).map (fun i =>
    (List.range p).map (fun j =>
      ∑ k ∈ Finset.range n, A.getD (i * n + k) 0 * B.getD (k * p + j) 0)))

/-- DataAnalytics.dot_product: delegates to np.dot. Modelled for the rank
combinations the program uses: 1-D·1-D (scalar result, modelled as a rank-0
array) and 2-D·2-D (matrix multiplication); np.dot raises on misaligned
dimensions. Other rank combinations are outside the modelled fragment. -/
def DataAnalytics.dot_product (arr : Option NumericArray) (other : NumericArray) :
    Except Err NumericArray :=
  match arr with
  | none => .error .noArray
  | some a =>
    match a.shape, other.shape with
    | [n], [n2] =>
      if n = n2 then .ok ⟨[], [dotData a.data other.data]⟩
      else .error .dimensionMismatch
    | [m, n], [n2, p] =>
      if n = n2 then .ok ⟨[m, p], matMulData m n p a.data other.data⟩
      else .error .dimensionMismatch
    | _, _ => .error .unsupportedDot

lemma getD_zipWith (f : ℚ → ℚ → ℚ) (l1 l2 : List ℚ) (i : ℕ)
    (h1 : i < l1.length) (h2 : i < l2.length) :
    (List.zipWith f l1 l2).getD i 0 = f (l1.getD i 0) (l2.getD i 0) := by
  rw [List.getD_eq_getElem _ _ (by simp; omega), List.getD_eq_getElem _ _ h1,
    List.getD_eq_getElem _ _ h2]
  exact List.getElem_zipWith

lemma zipWith_mul_sum (l1 l2 : List ℚ) (n : ℕ) (h1 : l1.length = n)
    (h2 : l2.length = n) :
    (List.zipWith (fun p q => p * q) l1 l2).sum =
      ∑ i ∈ Finset.range n, l1.getD i 0 * l2.getD i 0 := by
  induction n generalizing l1 l2 with
  | zero =>
    rw [List.length_eq_zero] at h1 h2
    subst h1
    subst h2
    simp
  | succ n ih =>
    cases l1 with
    | nil => simp at h1
    | cons x xs =>
      cases l2 with
      | nil => simp at h2
      | cons y ys =>
        simp only [List.zipWith_cons_cons, List.sum_cons]
        rw [ih xs ys (by simpa using h1) (by simpa using h2)]
        rw [Finset.sum_range_succ' (fun i => (x :: xs).getD i 0 * (y :: ys).getD i 0) n]
        simp only [List.getD_cons_succ, List.getD_cons_zero]
        ring

lemma getD_append_left (l1 l2 : List ℚ) (j : ℕ) (h : j < l1.length) :
    (l1 ++ l2).getD j 0 = l1.getD j 0 := by
  rw [List.getD_eq_getElem _ _ (by simp; omega), List.getD_eq_getElem _ _ h]
  exact List.getElem_append_left h

lemma getD_append_right (l1 l2 : List ℚ) (k : ℕ) :
    (l1 ++ l2).getD (l1.length + k) 0 = l2.getD k 0 := by
  by_cases h : k < l2.length
  · rw [List.getD_eq_getElem _ _ (by simp; omega), List.getD_eq_getElem _ _ h,
      List.getElem_append_right (by omega)]
    congr 1
    omega
  · rw [List.getD_eq_default _ _ (by simp; omega), List.getD_eq_default _ _ (by omega)]

lemma flatten_length_const (L : List (List ℚ)) (p : ℕ)
    (hL : ∀ c ∈ L, c.length = p) : L.flatten.length = L.length * p := by
  induction L with
  | nil => simp
  | cons c L ih =>
    simp only [List.flatten_cons, List.length_append, List.length_cons]
    rw [hL c (by simp), ih (fun d hd => hL d (by simp [hd]))]
    ring

lemma flatten_getD (L : List (List ℚ)) (p : ℕ) (hL : ∀ c ∈ L, c.length = p)
    (i j : ℕ) (hi : i < L.length) (hj : j < p) :
    L.flatten.getD (i * p + j) 0 = (L.getD i []).getD j 0 := by
  induction L generalizing i with
  | nil => simp at hi
  | cons c L ih =>
    have hc : c.length = p := hL c (by simp)
    cases i with
    | zero =>
      simp only [List.flatten_cons, Nat.zero_mul, Nat.zero_add, List.getD_cons_zero]
      exact getD_append_left c L.flatten j (by omega)
    | succ i' =>
      have harith : (i' + 1) * p + j = c.length + (i' * p + j) := by rw [hc]; ring
      rw [List.flatten_cons, harith, getD_append_right, List.getD_cons_succ]
      exact ih (fun d hd => hL d (by simp [hd])) i' (by simpa using hi)

lemma getD_map_range {α : Type} (d : α) (g : ℕ → α) (m i : ℕ) (hi : i < m) :
    ((List.range m).map g).getD i d = g i := by
  rw [List.getD_eq_getElem _ _ (by simpa using hi), List.getElem_map]
  congr 1
  exact List.getElem_range i (by simpa using hi)

/-- C3: for two held/wf arrays of identical shape and any of the four
operation names, the elementwise operation returns an array of the same
shape whose every entry is the operator applied to the corresponding entries;
for differing shapes it fails with the ShapeMismatch error. The quantification
over table lookups ranges exactly over add, subtract, multiply, divide. -/
theorem C3_elementwise (a b : NumericArray) (ha : a.wf) (hb : b.wf)
    (name : List Char) (f : ℚ → ℚ → ℚ)
    (hf : List.lookup name opsTable = some f) :
    (a.shape = b.shape →
      DataAnalytics.elementwise_operation (some a) b name =
        .ok ⟨a.shape, List.zipWith f a.data b.data⟩ ∧
      (List.zipWith f a.data b.data).length = a.data.length ∧
      ∀ i, i < a.data.length →
        (List.zipWith f a.data b.data).getD i 0 =
          f (a.data.getD i 0) (b.data.getD i 0)) ∧
    (a.shape ≠ b.shape →
      DataAnalytics.elementwise_operation (some a) b name =
        .error .shapeMismatch) := by
  constructor
  · intro hsh
    have hlen : b.data.length = a.data.length := by
      rw [ha, hb, hsh]
    refine ⟨by simp [DataAnalytics.elementwise_operation, hsh, hf], ?_, ?_⟩
    · simp [List.length_zipWith, hlen]
    · intro i hi
      exact getD_zipWith f a.data b.data i hi (by omega)
  · intro hsh
    simp [DataAnalytics.elementwise_operation, hsh]

/-- Witness for C3 at the spec's example: [1,2,3] add [4,5,6] gives [5,7,9]. -/
theorem C3_elementwise_witness :
    DataAnalytics.elementwise_operation (some ⟨[3], [1, 2, 3]⟩) ⟨[3], [4, 5, 6]⟩
      ['a', 'd', 'd'] = .ok ⟨[3], [5, 7, 9]⟩ := by
  have h := ((C3_elementwise ⟨[3], [1, 2, 3]⟩ ⟨[3], [4, 5, 6]⟩ rfl rfl
    ['a', 'd', 'd'] (fun x y => x + y) rfl).1 rfl).1
  rw [h]
  norm_num [List.zipWith]

/-- C4: the dot product of two equal-length rank-1 arrays is the scalar sum
of pairwise products (as a rank-0 result); for rank-2 operands with agreeing
inner dimension it is standard matrix multiplication, an m×n by n×p operation
yielding an m×p array; disagreeing inner dimensions fail with the
DimensionMismatch error. -/
theorem C4_dot (a b : NumericArray) :
    (∀ n, a.shape = [n] → b.shape = [n] → a.wf → b.wf →
      DataAnalytics.dot_product (some a) b =
        .ok ⟨[], [∑ i ∈ Finset.range n, a.data.getD i 0 * b.data.getD i 0]⟩) ∧
    (∀ m n p, a.shape = [m, n] → b.shape = [n, p] →
      DataAnalytics.dot_product (some a) b =
        .ok ⟨[m, p], matMulData m n p a.data b.data⟩ ∧
      (matMulData m n p a.data b.data).length = m * p ∧
      ∀ i j, i < m → j < p →
        (matMulData m n p a.data b.data).getD (i * p + j) 0 =
          ∑ k ∈ Finset.range n, a.data.getD (i * n + k) 0 * b.data.getD (k * p + j) 0) ∧
    (∀ m n q p, a.shape = [m, n] → b.shape = [q, p] → n ≠ q →
      DataAnalytics.dot_product (some a) b = .error .dimensionMismatch) := by
  refine ⟨?_, ?_, ?_⟩
  · intro n h1 h2 hwa hwb
    have la : a.data.length = n := by rw [hwa, h1]; simp
    have lb : b.data.length = n := by rw [hwb, h2]; simp
    have hz := zipWith_mul_sum a.data b.data n la lb
    simp [DataAnalytics.dot_product, h1, h2, dotData, hz]
  · intro m n p h1 h2
    have hL : ∀ c ∈ (List.range m).map (fun i => (List.range p).map (fun j =>
        ∑ k ∈ Finset.range n, a.data.getD (i * n + k) 0 * b.data.getD (k * p + j) 0)),
        c.length = p := by
      intro c hc
      simp only [List.mem_map] at hc
      obtain ⟨i, _, rfl⟩ := hc
      simp
    refine ⟨by simp [DataAnalytics.dot_product, h1, h2], ?_, ?_⟩
    · rw [matMulData, flatten_length_const _ p hL, List.length_map, List.length_range]
    · intro i j hi hj
      rw [matMulData, flatten_getD _ p hL i j (by simpa using hi) hj,
        getD_map_range _ _ m i hi, getD_map_range _ _ p j hj]
  · intro m n q p h1 h2 hne
    simp [DataAnalytics.dot_product, h1, h2, hne]

/-- Witness for C4 at the spec's examples: [1,2,3]·[4,5,6] is 32, a 2×3 by
3×2 product succeeds with shape [2,2], and a 2×3 by 2×2 attempt fails with
the DimensionMismatch error. -/
theorem C4_dot_witness :
    DataAnalytics.dot_product (some ⟨[3], [1, 2, 3]⟩) ⟨[3], [4, 5, 6]⟩ =
      .ok ⟨[], [32]⟩ ∧
    DataAnalytics.dot_product (some ⟨[2, 3], [1, 2, 3, 4, 5, 6]⟩)
      ⟨[3, 2], [7, 8, 9, 10, 11, 12]⟩ =
      .ok ⟨[2, 2], matMulData 2 3 2 [1, 2, 3, 4, 5, 6] [7, 8, 9, 10, 11, 12]⟩ ∧
    DataAnalytics.dot_product (some ⟨[2, 3], [1, 2, 3, 4, 5, 6]⟩)
      ⟨[2, 2], [1, 2, 3, 4]⟩ = .error .dimensionMismatch := by
  refine ⟨?_, ((C4_dot ⟨[2, 3], [1, 2, 3, 4, 5, 6]⟩
      ⟨[3, 2], [7, 8, 9, 10, 11, 12]⟩).2.1 2 3 2 rfl rfl).1,
    (C4_dot ⟨[2, 3], [1, 2, 3, 4, 5, 6]⟩ ⟨[2, 2], [1, 2, 3, 4]⟩).2.2 2 3 2 2
      rfl rfl (by decide)⟩
  have h := (C4_dot ⟨[3], [1, 2, 3]⟩ ⟨[3], [4, 5, 6]⟩).1 3 rfl rfl rfl rfl
  rw [h]
  have g0 : ([1, 2, 3] : List ℚ).getD 0 0 = 1 := rfl
  have g1 : ([1, 2, 3] : List ℚ).getD 1 0 = 2 := rfl
  have g2 : ([1, 2, 3] : List ℚ).getD 2 0 = 3 := rfl
  have k0 : ([4, 5, 6] : List ℚ).getD 0 0 = 4 := rfl
  have k1 : ([4, 5, 6] : List ℚ).getD 1 0 = 5 := rfl
  have k2 : ([4, 5, 6] : List ℚ).getD 2 0 = 6 := rfl
  rw [Finset.sum_range_succ, Finset.sum_range_succ, Finset.sum_range_one]
  norm_num [g0, g1, g2, k0, k1, k2]

/-- The last dimension of a shape: np.sort's default axis is -1. -/
def lastDim (s : List ℕ) : ℕ :=
  s.getLastD 1

/-- Split flat row-major data into the rows of the last axis: consecutive
chunks of length d. -/
def chunks (d : ℕ) (l : List ℚ) : List (List ℚ) :=
  if h : d = 0 ∨ l = [] then []
  else l.take d :: chunks d (l.drop d)
termination_by l.length
decreasing_by
  push_neg at h
  have h1 : 0 < l.length := List.length_pos.mpr h.2
  have h2 : 0 < d := Nat.pos_of_ne_zero h.1
  simp only [List.length_drop]
  omega

/-- DataAnalytics.sort_array with its default axis -1: np.sort returns a new
array (the held one is not mutated and is modelled as unchanged by the pure
embedding) in which each row along the last axis is sorted ascending. The
library's sort is modelled by insertion sort, which agrees on values since
both sort ascending. Sorting a rank-0 array would make axis -1 invalid. -/
def DataAnalytics.sort_array (arr : Option NumericArray) :
    Except Err NumericArray :=
  match arr with
  | none => .error .noArray
  | some a =>
    match a.shape with
    | [] => .error .axisOutOfBounds
    | _ =>
      .ok ⟨a.shape, List.flatten ((chunks (lastDim a.shape) a.data).map
        (List.insertionSort (· ≤ ·)))⟩

lemma chunks_nil (d : ℕ) : chunks d [] = [] := by
  rw [chunks]
  simp

lemma chunks_flatten_aux (d : ℕ) (hd : d ≠ 0) :
    ∀ (n : ℕ) (l : List ℚ), l.length ≤ n → (chunks d l).flatten = l := by
  intro n
  induction n with
  | zero =>
    intro l hl
    have : l = [] := List.length_eq_zero.mp (Nat.le_zero.mp hl)
    rw [this, chunks_nil]
    rfl
  | succ n ih =>
    intro l hl
    by_cases hl0 : l = []
    · rw [hl0, chunks_nil]
      rfl
    · rw [chunks, dif_neg (by simp [hd, hl0])]
      simp only [List.flatten_cons]
      rw [ih (l.drop d) (by
        have h1 : 0 < l.length := List.length_pos.mpr hl0
        have h2 : 0 < d := Nat.pos_of_ne_zero hd
        simp only [List.length_drop]
        omega)]
      exact List.take_append_drop d l

lemma chunks_flatten (d : ℕ) (hd : d ≠ 0) (l : List ℚ) :
    (chunks d l).flatten = l :=
  chunks_flatten_aux d hd l.length l le_rfl

lemma chunks_length_aux (d : ℕ) (hd : d ≠ 0) :
    ∀ (n : ℕ) (l : List ℚ), l.length ≤ n → d ∣ l.length →
      ∀ c ∈ chunks d l, c.length = d := by
  intro n
  induction n with
  | zero =>
    intro l hl _ c hc
    have : l = [] := List.length_eq_zero.mp (Nat.le_zero.mp hl)
    rw [this, chunks_nil] at hc
    simp at hc
  | succ n ih =>
    intro l hl hdiv c hc
    by_cases hl0 : l = []
    · rw [hl0, chunks_nil] at hc
      simp at hc
    · rw [chunks, dif_neg (by simp [hd, hl0])] at hc
      have h1 : 0 < l.length := List.length_pos.mpr hl0
      have h2 : 0 < d := Nat.pos_of_ne_zero hd
      have hdle : d ≤ l.length := Nat.le_of_dvd h1 hdiv
      rcases List.mem_cons.mp hc with hc | hc
      · rw [hc]
        simp only [List.length_take]
        omega
      · refine ih (l.drop d) ?_ ?_ c hc
        · simp only [List.length_drop]
          omega
        · simp only [List.length_drop]
          exact (Nat.dvd_sub' hdiv dvd_rfl)

lemma chunks_of_flatten (d : ℕ) (hd : d ≠ 0) (L : List (List ℚ))
    (hL : ∀ c ∈ L, c.length = d) : chunks d L.flatten = L := by
  induction L with
  | nil => exact chunks_nil d
  | cons c L ih =>
    have hc : c.length = d := hL c (by simp)
    have hcne : c ≠ [] := by
      intro h
      rw [h] at hc
      exact hd hc.symm
    rw [List.flatten_cons, chunks, dif_neg (by
      push_neg
      exact ⟨hd, fun h => hcne (List.append_eq_nil.mp h).1⟩)]
    congr 1
    · exact List.take_left' hc
    · rw [List.drop_left' hc]
      exact ih (fun e he => hL e (by simp [he]))

lemma flatten_map_sort_perm (L : List (List ℚ)) :
    List.Perm (List.flatten (L.map (List.insertionSort (· ≤ ·)))) L.flatten := by
  induction L with
  | nil => simp
  | cons c L ih =>
    simp only [List.map_cons, List.flatten_cons]
    exact (List.perm_insertionSort _ c).append ih

lemma prod_eq_dropLast_mul_lastDim (s : List ℕ) (hs : s ≠ []) :
    s.prod = s.dropLast.prod * lastDim s := by
  have hlast : lastDim s = s.getLast hs := by
    rw [lastDim, List.getLastD_eq_getLast?, List.getLast?_eq_getLast _ hs]
    rfl
  rw [hlast]
  conv_lhs => rw [← List.dropLast_append_getLast hs]
  rw [List.prod_append]
  simp

/-- C5: sorting a held well-formed array returns a new array of the same
shape whose rows along the last (default) axis are each ascending and whose
data is a permutation of the input's data, and sorting the result again
returns it unchanged (idempotence); the held array itself is unmodified,
which the pure embedding renders as sort_array not altering its argument. -/
theorem C5_sort (a : NumericArray) (ha : a.wf) (hs : a.shape ≠ []) :
    ∃ r, DataAnalytics.sort_array (some a) = .ok r ∧ r.shape = a.shape ∧
      (∀ c ∈ chunks (lastDim a.shape) r.data, List.Sorted (· ≤ ·) c) ∧
      List.Perm r.data a.data ∧
      DataAnalytics.sort_array (some r) = .ok r := by
  set d := lastDim a.shape with hd
  set L := (chunks d a.data).map (List.insertionSort (· ≤ ·)) with hL
  have hsort : DataAnalytics.sort_array (some a) = .ok ⟨a.shape, L.flatten⟩ := by
    simp only [DataAnalytics.sort_array]
  have hres : DataAnalytics.sort_array (some (⟨a.shape, L.flatten⟩ : NumericArray)) =
      .ok ⟨a.shape, List.flatten ((chunks d L.flatten).map
        (List.insertionSort (· ≤ ·)))⟩ := by
    simp only [DataAnalytics.sort_array]
  by_cases hd0 : d = 0
  · have hdata : a.data = [] := by
      rw [← List.length_eq_zero, ha, prod_eq_dropLast_mul_lastDim a.shape hs,
        ← hd, hd0, Nat.mul_zero]
    have hLnil : L = [] := by
      rw [hL, hdata, chunks_nil]
      rfl
    refine ⟨⟨a.shape, L.flatten⟩, hsort, rfl, ?_, ?_, ?_⟩
    · intro c hc
      rw [show (⟨a.shape, L.flatten⟩ : NumericArray).data = L.flatten from rfl,
        hLnil, show List.flatten ([] : List (List ℚ)) = [] from rfl,
        chunks_nil] at hc
      simp at hc
    · rw [show (⟨a.shape, L.flatten⟩ : NumericArray).data = L.flatten from rfl,
        hLnil, hdata]
      rfl
    · rw [hres, hLnil, show List.flatten ([] : List (List ℚ)) = [] from rfl,
        chunks_nil]
      rfl
  · have hdiv : d ∣ a.data.length := by
      rw [ha, prod_eq_dropLast_mul_lastDim a.shape hs, ← hd]
      exact Dvd.intro_left _ rfl
    have hchunklen : ∀ c ∈ chunks d a.data, c.length = d :=
      chunks_length_aux d hd0 a.data.length a.data le_rfl hdiv
    have hLlen : ∀ c ∈ L, c.length = d := by
      intro c hc
      rw [hL] at hc
      simp only [List.mem_map] at hc
      obtain ⟨e, he, rfl⟩ := hc
      rw [List.length_insertionSort]
      exact hchunklen e he
    have hrechunk : chunks d L.flatten = L := chunks_of_flatten d hd0 L hLlen
    have hsorted : ∀ c ∈ L, List.Sorted (· ≤ ·) c := by
      intro c hc
      rw [hL] at hc
      simp only [List.mem_map] at hc
      obtain ⟨e, _, rfl⟩ := hc
      exact List.sorted_insertionSort _ e
    have hmapid : L.map (List.insertionSort (· ≤ ·)) = L := by
      have hmap : L.map (List.insertionSort (· ≤ ·)) = L.map id :=
        List.map_congr_left (fun c hc => (hsorted c hc).insertionSort_eq)
      rw [hmap, List.map_id]
    refine ⟨⟨a.shape, L.flatten⟩, hsort, rfl, ?_, ?_, ?_⟩
    · intro c hc
      rw [show (⟨a.shape, L.flatten⟩ : NumericArray).data = L.flatten from rfl,
        hrechunk] at hc
      exact hsorted c hc
    · rw [show (⟨a.shape, L.flatten⟩ : NumericArray).data = L.flatten from rfl, hL]
      have hperm := flatten_map_sort_perm (chunks d a.data)
      rw [chunks_flatten d hd0 a.data] at hperm
      exact hperm
    · rw [hres, hrechunk, hmapid]

/-- Witness for C5: sorting the held array [3,1,2,5,4] succeeds, the result
is a permutation of it, and sorting the result returns it unchanged. -/
theorem C5_sort_witness :
    ∃ r, DataAnalytics.sort_array (some ⟨[5], [3, 1, 2, 5, 4]⟩) = .ok r ∧
      List.Perm r.data [3, 1, 2, 5, 4] ∧
      DataAnalytics.sort_array (some r) = .ok r := by
  obtain ⟨r, h1, _, _, h4, h5⟩ :=
    C5_sort ⟨[5], [3, 1, 2, 5, 4]⟩ rfl (by decide)
  exact ⟨r, h1, h4, h5⟩

/-- DataAnalytics.calculate_min: np.min raises on empty data and otherwise
reduces with the binary minimum over all elements (default axis=None). -/
def DataAnalytics.calculate_min (arr : Option NumericArray) : Except Err ℚ :=
  match arr with
  | none => .error .noArray
  | some a =>
    match a.data with
    | [] => .error .emptyArray
    | x :: xs => .ok (xs.foldl min x)

/-- DataAnalytics.calculate_max: np.max raises on empty data and otherwise
reduces with the binary maximum over all elements (default axis=None). -/
def DataAnalytics.calculate_max (arr : Option NumericArray) : Except Err ℚ :=
  match arr with
  | none => .error .noArray
  | some a =>
    match a.data with
    | [] => .error .emptyArray
    | x :: xs => .ok (xs.foldl max x)

/-- np.percentile's linear interpolation on sorted data s: the virtual index
is p/100·(n-1); the result interpolates between the bounding order
statistics, the upper index clamped to n-1. -/
def percentileInterp (s : List ℚ) (p : ℚ) : ℚ :=
  let idx : ℚ := p * ((s.length : ℚ) - 1) / 100
  let i : ℕ := ⌊idx⌋.toNat
  let lo := s.getD i 0
  let hi := s.getD (min (i + 1) (s.length - 1)) 0
  lo + Int.fract idx * (hi - lo)

/-- DataAnalytics.calculate_percentile: np.percentile raises unless the
percentage lies in [0,100] and the data is nonempty; otherwise it sorts the
flattened data and interpolates linearly (default axis=None). -/
def DataAnalytics.calculate_percentile (arr : Option NumericArray) (percent : ℚ) :
    Except Err ℚ :=
  match arr with
  | none => .error .noArray
  | some a =>
    if percent < 0 ∨ 100 < percent then .error .percentileOutOfRange
    else
      match a.data with
      | [] => .error .emptyArray
      | x :: xs =>
        .ok (percentileInterp (List.insertionSort (· ≤ ·) (x :: xs)) percent)

lemma percentileInterp_def (s : List ℚ) (p : ℚ) :
    percentileInterp s p =
      s.getD ⌊p * ((s.length : ℚ) - 1) / 100⌋.toNat 0 +
        Int.fract (p * ((s.length : ℚ) - 1) / 100) *
          (s.getD (min (⌊p * ((s.length : ℚ) - 1) / 100⌋.toNat + 1) (s.length - 1)) 0 -
            s.getD ⌊p * ((s.length : ℚ) - 1) / 100⌋.toNat 0) :=
  rfl

lemma sorted_getD_mono (s : List ℚ) (hs : List.Sorted (· ≤ ·) s) {i j : ℕ}
    (hij : i ≤ j) (hj : j < s.length) : s.getD i 0 ≤ s.getD j 0 := by
  have hi : i < s.length := lt_of_le_of_lt hij hj
  rw [List.getD_eq_getElem _ _ hi, List.getD_eq_getElem _ _ hj]
  have := hs.rel_get_of_le (show (⟨i, hi⟩ : Fin s.length) ≤ ⟨j, hj⟩ from hij)
  simpa [List.get_eq_getElem] using this

lemma foldl_min_le_init (as : List ℚ) (z : ℚ) : as.foldl min z ≤ z := by
  induction as generalizing z with
  | nil => exact le_refl z
  | cons b bs ih => exact le_trans (ih (min z b)) (min_le_left z b)

lemma foldl_min_le (xs : List ℚ) (x y : ℚ) (hy : y ∈ x :: xs) :
    xs.foldl min x ≤ y := by
  induction xs generalizing x with
  | nil =>
    rcases List.mem_cons.mp hy with rfl | hy'
    · exact le_refl y
    · simp at hy'
  | cons a as ih =>
    rcases List.mem_cons.mp hy with rfl | hy'
    · exact le_trans (foldl_min_le_init as (min y a)) (min_le_left y a)
    · rcases List.mem_cons.mp hy' with rfl | hy''
      · exact le_trans (foldl_min_le_init as (min x y)) (min_le_right x y)
      · exact ih (min x a) (List.mem_cons_of_mem _ hy'')

lemma foldl_min_mem (xs : List ℚ) (x : ℚ) : xs.foldl min x ∈ x :: xs := by
  induction xs generalizing x with
  | nil => simp
  | cons a as ih =>
    rcases List.mem_cons.mp (ih (min x a)) with h | h
    · rcases min_choice x a with hm | hm
      · rw [List.foldl_cons, h, hm]
        simp
      · rw [List.foldl_cons, h, hm]
        simp
    · rw [List.foldl_cons]
      rcases List.mem_cons.mp (ih (min x a)) with h2 | h2
      · rcases min_choice x a with hm | hm
        · rw [h2, hm]; simp
        · rw [h2, hm]; simp
      · exact List.mem_cons_of_mem _ (List.mem_cons_of_mem _ h2)

lemma foldl_max_ge_init (as : List ℚ) (z : ℚ) : z ≤ as.foldl max z := by
  induction as generalizing z with
  | nil => exact le_refl z
  | cons b bs ih => exact le_trans (le_max_left z b) (ih (max z b))

lemma foldl_max_ge (xs : List ℚ) (x y : ℚ) (hy : y ∈ x :: xs) :
    y ≤ xs.foldl max x := by
  induction xs generalizing x with
  | nil =>
    rcases List.mem_cons.mp hy with rfl | hy'
    · exact le_refl y
    · simp at hy'
  | cons a as ih =>
    rcases List.mem_cons.mp hy with rfl | hy'
    · exact le_trans (le_max_left y a) (foldl_max_ge_init as (max y a))
    · rcases List.mem_cons.mp hy' with rfl | hy''
      · exact le_trans (le_max_right x y) (foldl_max_ge_init as (max x y))
      · exact ih (max x a) (List.mem_cons_of_mem _ hy'')

lemma foldl_max_mem (xs : List ℚ) (x : ℚ) : xs.foldl max x ∈ x :: xs := by
  induction xs generalizing x with
  | nil => simp
  | cons a as ih =>
    rw [List.foldl_cons]
    rcases List.mem_cons.mp (ih (max x a)) with h | h
    · rcases max_choice x a with hm | hm
      · rw [h, hm]; simp
      · rw [h, hm]; simp
    · exact List.mem_cons_of_mem _ (List.mem_cons_of_mem _ h)

lemma insertionSort_ne_nil (x : ℚ) (xs : List ℚ) :
    List.insertionSort (· ≤ ·) (x :: xs) ≠ [] := by
  intro h
  have hperm := List.perm_insertionSort (· ≤ ·) (x :: xs)
  rw [h] at hperm
  have := hperm.symm.eq_nil
  simp at this

lemma getD_mem (s : List ℚ) (i : ℕ) (hi : i < s.length) : s.getD i 0 ∈ s := by
  rw [List.getD_eq_getElem _ _ hi]
  exact List.getElem_mem hi

lemma sorted_head_eq_foldl_min (x : ℚ) (xs : List ℚ) :
    (List.insertionSort (· ≤ ·) (x :: xs)).getD 0 0 = xs.foldl min x := by
  have hperm := List.perm_insertionSort (· ≤ ·) (x :: xs)
  have hsorted := List.sorted_insertionSort (· ≤ ·) (x :: xs)
  obtain ⟨b, bs, hbs⟩ : ∃ b bs, List.insertionSort (· ≤ ·) (x :: xs) = b :: bs := by
    cases h : List.insertionSort (· ≤ ·) (x :: xs) with
    | nil => exact absurd h (insertionSort_ne_nil x xs)
    | cons b bs => exact ⟨b, bs, rfl⟩
  have hb_mem : b ∈ x :: xs := hperm.mem_iff.mp (by rw [hbs]; simp)
  have hb_le : ∀ y ∈ x :: xs, b ≤ y := by
    intro y hy
    have hy' : y ∈ b :: bs := by
      rw [← hbs]
      exact hperm.mem_iff.mpr hy
    rcases List.mem_cons.mp hy' with rfl | hy''
    · exact le_refl y
    · exact List.rel_of_sorted_cons (hbs ▸ hsorted) y hy''
  rw [hbs, List.getD_cons_zero]
  exact le_antisymm (hb_le _ (foldl_min_mem xs x)) (foldl_min_le xs x b hb_mem)

lemma sorted_last_eq_foldl_max (x : ℚ) (xs : List ℚ) :
    (List.insertionSort (· ≤ ·) (x :: xs)).getD
      ((List.insertionSort (· ≤ ·) (x :: xs)).length - 1) 0 = xs.foldl max x := by
  have hperm := List.perm_insertionSort (· ≤ ·) (x :: xs)
  have hsorted := List.sorted_insertionSort (· ≤ ·) (x :: xs)
  have hlen : 0 < (List.insertionSort (· ≤ ·) (x :: xs)).length := by
    rw [hperm.length_eq]
    simp
  have hmem : (List.insertionSort (· ≤ ·) (x :: xs)).getD
      ((List.insertionSort (· ≤ ·) (x :: xs)).length - 1) 0 ∈ x :: xs := by
    apply hperm.mem_iff.mp
    exact getD_mem _ _ (by omega)
  have hge : ∀ y ∈ x :: xs, y ≤ (List.insertionSort (· ≤ ·) (x :: xs)).getD
      ((List.insertionSort (· ≤ ·) (x :: xs)).length - 1) 0 := by
    intro y hy
    have hy' : y ∈ List.insertionSort (· ≤ ·) (x :: xs) := hperm.mem_iff.mpr hy
    obtain ⟨⟨i, hi⟩, rfl⟩ := List.mem_iff_get.mp hy'
    have : (List.insertionSort (· ≤ ·) (x :: xs)).get ⟨i, hi⟩ =
        (List.insertionSort (· ≤ ·) (x :: xs)).getD i 0 := by
      rw [List.getD_eq_getElem _ _ hi, List.get_eq_getElem]
    rw [this]
    exact sorted_getD_mono _ hsorted (by omega) (by omega)
  exact le_antisymm (foldl_max_ge xs x _ hmem) (hge _ (foldl_max_mem xs x))

lemma interp_formula_mono (s : List ℚ) (hs : List.Sorted (· ≤ ·) s)
    (hn1 : 1 ≤ s.length) {t u : ℚ} (ht0 : 0 ≤ t) (htu : t ≤ u)
    (hun : u ≤ (s.length : ℚ) - 1) :
    s.getD ⌊t⌋.toNat 0 + Int.fract t *
        (s.getD (min (⌊t⌋.toNat + 1) (s.length - 1)) 0 - s.getD ⌊t⌋.toNat 0) ≤
      s.getD ⌊u⌋.toNat 0 + Int.fract u *
        (s.getD (min (⌊u⌋.toNat + 1) (s.length - 1)) 0 - s.getD ⌊u⌋.toNat 0) := by
  have hu0 : 0 ≤ u := le_trans ht0 htu
  have hft0 : (0 : ℤ) ≤ ⌊t⌋ := Int.floor_nonneg.mpr ht0
  have hfu0 : (0 : ℤ) ≤ ⌊u⌋ := Int.floor_nonneg.mpr hu0
  have hfn : ⌊(s.length : ℚ) - 1⌋ = (s.length : ℤ) - 1 := by
    rw [show ((s.length : ℚ) - 1) = (((s.length : ℤ) - 1 : ℤ) : ℚ) by push_cast; ring,
      Int.floor_intCast]
  have hfu_le : ⌊u⌋ ≤ (s.length : ℤ) - 1 := by
    rw [← hfn]
    exact Int.floor_le_floor hun
  have hft_le : ⌊t⌋ ≤ (s.length : ℤ) - 1 := le_trans (Int.floor_le_floor htu) hfu_le
  have hit_le : ⌊t⌋.toNat ≤ s.length - 1 := by omega
  have hiu_le : ⌊u⌋.toNat ≤ s.length - 1 := by omega
  have hAB_t : s.getD ⌊t⌋.toNat 0 ≤ s.getD (min (⌊t⌋.toNat + 1) (s.length - 1)) 0 := by
    apply sorted_getD_mono s hs
    · exact le_min (Nat.le_succ _) hit_le
    · exact lt_of_le_of_lt (min_le_right _ _) (by omega)
  have hAB_u : s.getD ⌊u⌋.toNat 0 ≤ s.getD (min (⌊u⌋.toNat + 1) (s.length - 1)) 0 := by
    apply sorted_getD_mono s hs
    · exact le_min (Nat.le_succ _) hiu_le
    · exact lt_of_le_of_lt (min_le_right _ _) (by omega)
  rcases eq_or_lt_of_le (Int.floor_le_floor htu) with hf | hf
  · have hiteq : ⌊t⌋.toNat = ⌊u⌋.toNat := by rw [hf]
    rw [hiteq]
    have hfr : Int.fract t ≤ Int.fract u := by
      rw [Int.fract, Int.fract, hf]
      exact sub_le_sub_right htu _
    have hBA : (0 : ℚ) ≤ s.getD (min (⌊u⌋.toNat + 1) (s.length - 1)) 0 -
        s.getD ⌊u⌋.toNat 0 := sub_nonneg.mpr hAB_u
    exact add_le_add_left (mul_le_mul_of_nonneg_right hfr hBA) _
  · have step1 : s.getD ⌊t⌋.toNat 0 + Int.fract t *
        (s.getD (min (⌊t⌋.toNat + 1) (s.length - 1)) 0 - s.getD ⌊t⌋.toNat 0) ≤
        s.getD (min (⌊t⌋.toNat + 1) (s.length - 1)) 0 := by
      have h1 : Int.fract t ≤ 1 := le_of_lt (Int.fract_lt_one t)
      have h2 := mul_le_mul_of_nonneg_right h1 (sub_nonneg.mpr hAB_t)
      linarith
    have step2 : s.getD (min (⌊t⌋.toNat + 1) (s.length - 1)) 0 ≤
        s.getD ⌊u⌋.toNat 0 := by
      apply sorted_getD_mono s hs
      · have : ⌊t⌋ + 1 ≤ ⌊u⌋ := Int.lt_iff_add_one_le.mp hf
        have h3 : ⌊t⌋.toNat + 1 ≤ ⌊u⌋.toNat := by omega
        exact le_trans (min_le_left _ _) h3
      · omega
    have step3 : s.getD ⌊u⌋.toNat 0 ≤ s.getD ⌊u⌋.toNat 0 + Int.fract u *
        (s.getD (min (⌊u⌋.toNat + 1) (s.length - 1)) 0 - s.getD ⌊u⌋.toNat 0) :=
      le_add_of_nonneg_right (mul_nonneg (Int.fract_nonneg u) (sub_nonneg.mpr hAB_u))
    exact le_trans step1 (le_trans step2 step3)

lemma percentileInterp_mono (s : List ℚ) (hs : List.Sorted (· ≤ ·) s)
    (hne : s ≠ []) {p q : ℚ} (hp : 0 ≤ p) (hpq : p ≤ q) (hq : q ≤ 100) :
    percentileInterp s p ≤ percentileInterp s q := by
  have hn1 : 1 ≤ s.length := List.length_pos.mpr hne
  have hnq : (1 : ℚ) ≤ (s.length : ℚ) := by exact_mod_cast hn1
  have hnn : (0 : ℚ) ≤ (s.length : ℚ) - 1 := by linarith
  rw [percentileInterp_def, percentileInterp_def]
  apply interp_formula_mono s hs hn1
  · exact div_nonneg (mul_nonneg hp hnn) (by norm_num)
  · gcongr
  · rw [div_le_iff₀ (by norm_num : (0 : ℚ) < 100)]
    nlinarith

lemma calculate_percentile_ok (a : NumericArray) (x : ℚ) (xs : List ℚ)
    (hxs : a.data = x :: xs) (p : ℚ) (h0 : 0 ≤ p) (h100 : p ≤ 100) :
    DataAnalytics.calculate_percentile (some a) p =
      .ok (percentileInterp (List.insertionSort (· ≤ ·) (x :: xs)) p) := by
  simp only [DataAnalytics.calculate_percentile, hxs]
  rw [if_neg (by push_neg; exact ⟨h0, h100⟩)]

lemma percentileInterp_zero (s : List ℚ) : percentileInterp s 0 = s.getD 0 0 := by
  rw [percentileInterp_def]
  norm_num

lemma percentileInterp_hundred (s : List ℚ) (hn : s ≠ []) :
    percentileInterp s 100 = s.getD (s.length - 1) 0 := by
  have hlen : 1 ≤ s.length := List.length_pos.mpr hn
  have hidx : (100 : ℚ) * ((s.length : ℚ) - 1) / 100 = ((s.length - 1 : ℕ) : ℚ) := by
    rw [mul_div_cancel_left₀ _ (by norm_num : (100 : ℚ) ≠ 0)]
    push_cast [hlen]
    ring
  rw [percentileInterp_def, hidx, Int.floor_natCast, Int.fract_natCast]
  simp

/-- C6: for a held nonempty array, the percentile at 0 equals the minimum,
the percentile at 100 equals the maximum, and the percentile value is
monotone non-decreasing in the requested percentage over [0, 100]. -/
theorem C6_percentile (a : NumericArray) (hne : a.data ≠ []) :
    DataAnalytics.calculate_percentile (some a) 0 =
      DataAnalytics.calculate_min (some a) ∧
    DataAnalytics.calculate_percentile (some a) 100 =
      DataAnalytics.calculate_max (some a) ∧
    ∀ p q vp vq, 0 ≤ p → p ≤ q → q ≤ 100 →
      DataAnalytics.calculate_percentile (some a) p = .ok vp →
      DataAnalytics.calculate_percentile (some a) q = .ok vq → vp ≤ vq := by
  obtain ⟨x, xs, hxs⟩ : ∃ x xs, a.data = x :: xs := by
    cases h : a.data with
    | nil => exact absurd h hne
    | cons x xs => exact ⟨x, xs, rfl⟩
  refine ⟨?_, ?_, ?_⟩
  · rw [calculate_percentile_ok a x xs hxs 0 le_rfl (by norm_num)]
    simp only [DataAnalytics.calculate_min, hxs]
    rw [percentileInterp_zero, sorted_head_eq_foldl_min]
  · rw [calculate_percentile_ok a x xs hxs 100 (by norm_num) le_rfl]
    simp only [DataAnalytics.calculate_max, hxs]
    rw [percentileInterp_hundred _ (insertionSort_ne_nil x xs),
      sorted_last_eq_foldl_max]
  · intro p q vp vq hp hpq hq hvp hvq
    rw [calculate_percentile_ok a x xs hxs p hp (le_trans hpq hq)] at hvp
    rw [calculate_percentile_ok a x xs hxs q (le_trans hp hpq) hq] at hvq
    injection hvp with hvp'
    injection hvq with hvq'
    rw [← hvp', ← hvq']
    exact percentileInterp_mono _ (List.sorted_insertionSort _ _)
      (insertionSort_ne_nil x xs) hp hpq hq

/-- Witness for C6 at the array [2, 1, 3]: the percentile at 0 equals the
minimum and at 100 the maximum. -/
theorem C6_percentile_witness :
    DataAnalytics.calculate_percentile (some ⟨[3], [2, 1, 3]⟩) 0 =
      DataAnalytics.calculate_min (some ⟨[3], [2, 1, 3]⟩) ∧
    DataAnalytics.calculate_percentile (some ⟨[3], [2, 1, 3]⟩) 100 =
      DataAnalytics.calculate_max (some ⟨[3], [2, 1, 3]⟩) := by
  have h := C6_percentile ⟨[3], [2, 1, 3]⟩ (by simp)
  exact ⟨h.1, h.2.1⟩

/-- DataAnalytics.calculate_sum: np.sum over all elements (axis=None). -/
def DataAnalytics.calculate_sum (arr : Option NumericArray) : Except Err ℚ :=
  match arr with
  | none => .error .noArray
  | some a => .ok a.data.sum

/-- DataAnalytics.calculate_mean: np.mean, the sum over the count; np.mean's
nan on empty data is outside the rational model (division by zero yields 0
over ℚ). -/
def DataAnalytics.calculate_mean (arr : Option NumericArray) : Except Err ℚ :=
  match arr with
  | none => .error .noArray
  | some a => .ok (a.data.sum / a.data.length)

/-- DataAnalytics.calculate_median: np.median, the middle of the sorted data,
averaging the two middles for an even count; nan on empty data is outside
the rational model. -/
def DataAnalytics.calculate_median (arr : Option NumericArray) : Except Err ℚ :=
  match arr with
  | none => .error .noArray
  | some a =>
    let s := List.insertionSort (· ≤ ·) a.data
    if s.length % 2 = 1 then .ok (s.getD (s.length / 2) 0)
    else .ok ((s.getD (s.length / 2 - 1) 0 + s.getD (s.length / 2) 0) / 2)

/-- DataAnalytics.calculate_variance: np.var, the population variance — the
mean of squared deviations from the mean (divisor N). -/
def DataAnalytics.calculate_variance (arr : Option NumericArray) : Except Err ℚ :=
  match arr with
  | none => .error .noArray
  | some a =>
    let m := a.data.sum / a.data.length
    .ok ((a.data.map (fun x => (x - m) ^ 2)).sum / a.data.length)

/-- DataAnalytics.calculate_std: np.std, the square root of the population
variance; the square root forces the real-valued codomain. -/
noncomputable def DataAnalytics.calculate_std (arr : Option NumericArray) :
    Except Err ℝ :=
  (DataAnalytics.calculate_variance arr).map (fun v => Real.sqrt (v : ℝ))

/-- Python/numpy index resolution: negative indices count from the end of the
axis; anything out of range raises IndexError. -/
def pyIndex (n : ℕ) (i : ℤ) : Option ℕ :=
  let j := if i < 0 then i + n else i
  if 0 ≤ j ∧ j < n then some j.toNat else none

/-- The result of DataAnalytics.indexing: a scalar element or an array. -/
inductive IndexResult
  | scalar (q : ℚ)
  | array (a : NumericArray)

/-- DataAnalytics.indexing: returns an element, a row, or the whole array
depending on the rank and the indices provided, as in the source's
ndim-dispatch; ranks other than 1 and 2 return the array unchanged. -/
def DataAnalytics.indexing (arr : Option NumericArray) (row col : Option ℤ) :
    Except Err IndexResult :=
  match arr with
  | none => .error .noArray
  | some a =>
    match a.shape with
    | [n] =>
      match row with
      | some r =>
        match pyIndex n r with
        | some j => .ok (.scalar (a.data.getD j 0))
        | none => .error .indexOutOfRange
      | none => .ok (.array a)
    | [m, nc] =>
      match row, col with
      | some r, some c =>
        match pyIndex m r, pyIndex nc c with
        | some j, some k => .ok (.scalar (a.data.getD (j * nc + k) 0))
        | _, _ => .error .indexOutOfRange
      | some r, none =>
        match pyIndex m r with
        | some j => .ok (.array ⟨[nc], (a.data.drop (j * nc)).take nc⟩)
        | none => .error .indexOutOfRange
      | none, _ => .ok (.array a)
    | _ => .ok (.array a)

/-- C7: every aggregation operation — sum, mean, median, standard deviation,
variance, min, max, percentile — fails with the NoArrayError when no array is
held, and indexing likewise fails with NoArrayError with no array. -/
theorem C7_no_array_errors :
    DataAnalytics.calculate_sum none = .error .noArray ∧
    DataAnalytics.calculate_mean none = .error .noArray ∧
    DataAnalytics.calculate_median none = .error .noArray ∧
    DataAnalytics.calculate_std none = .error .noArray ∧
    DataAnalytics.calculate_variance none = .error .noArray ∧
    DataAnalytics.calculate_min none = .error .noArray ∧
    DataAnalytics.calculate_max none = .error .noArray ∧
    (∀ p, DataAnalytics.calculate_percentile none p = .error .noArray) ∧
    (∀ row col, DataAnalytics.indexing none row col = .error .noArray) :=
  ⟨rfl, rfl, rfl, rfl, rfl, rfl, rfl, fun _ => rfl, fun _ _ => rfl⟩

/-- A Python value as far as the array holder is concerned: None, a numpy
array, or some other value (a number or a string as representatives of the
dynamically-typed rest). -/
inductive PyValue
  | noneV
  | ndarray (a : NumericArray)
  | num (q : ℚ)
  | str (s : List Char)

/-- The DataAnalytics object: its single private attribute `_array`. Python
is dynamically typed, so the attribute may hold whatever value the
constructor or setter stores. -/
structure DataAnalytics where
  _array : PyValue

/-- DataAnalytics.__init__: stores its argument in `_array` directly, with no
validation (the property setter is not involved in this assignment); the
default argument is None. -/
def DataAnalytics.init (array : PyValue) : DataAnalytics :=
  ⟨array⟩

/-- isinstance(value, np.ndarray). -/
def PyValue.isNdarray : PyValue → Bool
  | .ndarray _ => true
  | _ => false

/-- The array property setter: stores the value only when it is a numpy
array, rejecting anything else with ValueError. -/
def DataAnalytics.setArray (_d : DataAnalytics) (value : PyValue) :
    Except Err DataAnalytics :=
  match value with
  | .ndarray a => .ok ⟨.ndarray a⟩
  | _ => .error .notNdarray

/-- The invariant claimed by the spec for the holder: it contains nothing or
a numeric array. -/
def holderOK (d : DataAnalytics) : Prop :=
  match d._array with
  | .noneV => True
  | .ndarray _ => True
  | _ => False

/-- Counterexample to C8 as stated: the constructor stores a non-array value
(here the number 5) without raising, so a holder built as DataAnalytics(5)
holds a value that is neither nothing nor a numeric array. -/
theorem C8_counterexample :
    (DataAnalytics.init (PyValue.num 5))._array = PyValue.num 5 ∧
    ¬ holderOK (DataAnalytics.init (PyValue.num 5)) :=
  ⟨rfl, fun h => h⟩

/-- C8 amended: the array property setter accepts exactly numpy arrays —
assigning any other value through it is rejected with an error — and every
holder produced by the setter, or constructed with the default None,
satisfies the nothing-or-ndarray invariant. The constructor itself stores
its argument unvalidated (see the counterexample), so the invariant is
guaranteed only for holders built empty or with an array and updated through
the setter. -/
theorem C8_setter_validation (d : DataAnalytics) (v : PyValue) :
    (v.isNdarray = false → DataAnalytics.setArray d v = .error .notNdarray) ∧
    (∀ d', DataAnalytics.setArray d v = .ok d' → holderOK d') ∧
    holderOK (DataAnalytics.init PyValue.noneV) := by
  refine ⟨?_, ?_, trivial⟩
  · intro hv
    cases v with
    | ndarray a => simp [PyValue.isNdarray] at hv
    | noneV => rfl
    | num q => rfl
    | str s => rfl
  · intro d' hd
    cases v with
    | ndarray a =>
      simp only [DataAnalytics.setArray] at hd
      injection hd with h
      rw [← h]
      trivial
    | noneV => simp [DataAnalytics.setArray] at hd
    | num q => simp [DataAnalytics.setArray] at hd
    | str s => simp [DataAnalytics.setArray] at hd

/-- Witness for the amended C8: assigning the number 3 through the setter is
rejected with the not-an-ndarray error. -/
theorem C8_setter_validation_witness :
    DataAnalytics.setArray (DataAnalytics.init PyValue.noneV) (PyValue.num 3) =
      .error .notNdarray :=
  (C8_setter_validation (DataAnalytics.init PyValue.noneV) (PyValue.num 3)).1 rfl

/-- The NumPyAnalyzer shell state: self.analyzer is None until a creation
flow succeeds. Only the holder-relevant state is modelled. -/
structure NumPyAnalyzer where
  analyzer : Option DataAnalytics

/-- NumPyAnalyzer.create_2d_array: runs the creation classmethod inside
try/except. On success the classmethod's new DataAnalytics object (holding
the new ndarray) replaces self.analyzer unconditionally; on any error the
handler prints a message and self.analyzer is left untouched. -/
def NumPyAnalyzer.create_2d_array (st : NumPyAnalyzer) (rows cols : ℕ)
    (elements : ElementsInput) : NumPyAnalyzer :=
  match DataAnalytics.create_2d_array rows cols elements with
  | .ok arr => ⟨some (DataAnalytics.init (PyValue.ndarray arr))⟩
  | .error _ => st

/-- C9: on every successful 2-D construction the holder's current array is
replaced by the newly constructed one regardless of what was held before,
and on every failed construction (element-count mismatch or unparsable
elements) the holder state is exactly unchanged. -/
theorem C9_construction_atomic (st : NumPyAnalyzer) (rows cols : ℕ)
    (elements : ElementsInput) :
    (∀ arr, DataAnalytics.create_2d_array rows cols elements = .ok arr →
      NumPyAnalyzer.create_2d_array st rows cols elements =
        ⟨some (DataAnalytics.init (PyValue.ndarray arr))⟩) ∧
    (∀ e, DataAnalytics.create_2d_array rows cols elements = .error e →
      NumPyAnalyzer.create_2d_array st rows cols elements = st) := by
  constructor
  · intro arr h
    rw [NumPyAnalyzer.create_2d_array, h]
  · intro e h
    rw [NumPyAnalyzer.create_2d_array, h]

/-- Witness for C9: from a state holding the array [7], a failing 2×3
construction with five elements leaves the state unchanged, and a succeeding
one with six elements replaces the held array. -/
theorem C9_construction_atomic_witness :
    NumPyAnalyzer.create_2d_array
      ⟨some (DataAnalytics.init (PyValue.ndarray ⟨[1], [7]⟩))⟩ 2 3
      (.list [1, 2, 3, 4, 5]) =
      ⟨some (DataAnalytics.init (PyValue.ndarray ⟨[1], [7]⟩))⟩ ∧
    NumPyAnalyzer.create_2d_array
      ⟨some (DataAnalytics.init (PyValue.ndarray ⟨[1], [7]⟩))⟩ 2 3
      (.list [1, 2, 3, 4, 5, 6]) =
      ⟨some (DataAnalytics.init (PyValue.ndarray ⟨[2, 3], [1, 2, 3, 4, 5, 6]⟩))⟩ := by
  constructor
  · exact (C9_construction_atomic _ 2 3 (.list [1, 2, 3, 4, 5])).2 .shapeMismatch
      (by norm_num [DataAnalytics.create_2d_array, toElements])
  · exact (C9_construction_atomic _ 2 3 (.list [1, 2, 3, 4, 5, 6])).1
      ⟨[2, 3], [1, 2, 3, 4, 5, 6]⟩
      (by norm_num [DataAnalytics.create_2d_array, toElements])

end Analyzer
